import Mathlib

/-!
Verification development for the spec-parser repository.

The Python sources (`spec-parser/helper.py`, `src/utils.py`) are embedded
shallowly: Python dicts become ordered association lists with
replace-in-place assignment (the semantics of `d[k] = v`), logging of
ERROR records becomes an explicit list of error messages returned next to
each constructed value, and the one place where the code can raise an
exception (`SpecClass.extract_properties` referencing the possibly-unbound
local `_key`) is embedded with `Except`.
-/

set_option autoImplicit false

universe u

/-- Ordered string-keyed mapping, modelling a Python `dict` (insertion
order preserved, assignment to an existing key replaces in place). -/
abbrev Dict (α : Type u) : Type u := List (String × α)

namespace Dict

variable {α : Type u}

/-- `d.get(k)` / `k in d`: find the value at the first matching key. -/
def lookup : Dict α → String → Option α
  | [], _ => none
  | (k', v) :: rest, k => if k' = k then some v else lookup rest k

/-- Python `k in d`. -/
def contains (d : Dict α) (k : String) : Bool :=
  (lookup d k).isSome

/-- Python `d[k] = v`: replace in place if the key exists, else append. -/
def insert : Dict α → String → α → Dict α
  | [], k, v => [(k, v)]
  | (k', v') :: rest, k, v =>
      if k' = k then (k, v) :: rest else (k', v') :: insert rest k v

/-- Python `d.get(k, dflt)`. -/
def getD (d : Dict α) (k : String) (dflt : α) : α :=
  (lookup d k).getD dflt

/-- The keys of the mapping, in order. -/
def keys (d : Dict α) : List String :=
  d.map Prod.fst

/-- The mapping has pairwise distinct keys (true of every mapping built
from the empty dict by `insert`, as every Python dict is). -/
def NodupKeys (d : Dict α) : Prop :=
  (keys d).Nodup

end Dict

/-- Models `re.split(':', s)` from `helper.gen_rdf_id`, at the level of
the character list of the string: split at every occurrence of `c`,
keeping empty segments. -/
def splitOnChar (c : Char) : List Char → List (List Char)
  | [] => [[]]
  | x :: xs =>
      let r := splitOnChar c xs
      if x = c then [] :: r else (x :: r.headD []) :: r.tail

/-- `helper.gen_rdf_id(entity, namespace_name)`: resolve a (possibly
short-form) reference against a context namespace.  `pfx` stands for the
configured `id_metadata_prefix` string (supplied by the out-of-scope
`config` module), passed explicitly. -/
def gen_rdf_id (pfx : String) (entity namespace_name : String) : String :=
  let splitted := splitOnChar ':' entity.data
  if splitted.length > 2 then
    entity
  else if splitted.length = 2 then
    pfx ++ String.mk (splitted.headD []) ++ "#" ++ String.mk (splitted.getLastD [])
  else
    pfx ++ namespace_name ++ "#" ++ String.mk (splitted.getLastD [])

/-- `helper.union_dict(d1, d2)`: add to `d1` every key of `d2` not already
present, never overwriting (returns the new `d1`). -/
def union_dict {α : Type u} (d1 d2 : Dict α) : Dict α :=
  d2.foldl (fun acc kv => if Dict.contains acc kv.1 then acc else acc ++ [kv]) d1

/-- The last element of `items` whose name (under `gn`) is `k`, if any. -/
def lastWith {α : Type u} (gn : α → String) (k : String) : List α → Option α
  | [] => none
  | x :: rest =>
      match lastWith gn k rest with
      | some y => some y
      | none => if gn x = k then some x else none

/-- One shared shape occurs five times in `utils.py` (metadata of the three
entity kinds, vocabulary entries, attribute lines of a property-usage
block) and three more times in `Spec.add_namespace`: iterate over declared
items; if the item's name is already a key of the dict under construction,
log an ERROR (here: append `msg name` to the error list); then assign
`d[name] = value` unconditionally.  `dupLoop` is that loop, instantiated
at each call site with the site's message, name and value projections. -/
def dupLoop {α : Type u} {β : Type u} (msg : String → String)
    (gn : α → String) (gv : α → β) :
    List α → Dict β × List String → Dict β × List String
  | [], acc => acc
  | x :: rest, (d, es) =>
      let es' := if Dict.contains d (gn x) then es ++ [msg (gn x)] else es
      dupLoop msg gn gv rest (Dict.insert d (gn x) (gv x), es')

/-- A raw metadata or attribute line: `{'name': ..., 'values': [...]}`. -/
structure MDataLine where
  name : String
  values : List String
deriving DecidableEq

/-- A raw property-usage block of a class: `{'name': ..., 'values': [avlines]}`. -/
structure PropUsage where
  name : String
  values : List MDataLine
deriving DecidableEq

/-- A raw vocabulary entry line: `{'name': ..., 'value': ...}`. -/
structure EntryLine where
  name : String
  value : String
deriving DecidableEq

/-- An RDF triple (subject, predicate, object), the unit added by each
entity to the shared `rdflib.Graph`. -/
structure Triple where
  subj : String
  pred : String
  obj : String
deriving DecidableEq

/-- `SpecClass.extract_metadata` / `SpecProperty.extract_metadata` /
`SpecVocab.extract_metadata` (the three method bodies in `utils.py` are
line-for-line identical): seed the metadata with the synthetic `id` entry,
apply each declared line (duplicate key: ERROR logged, assignment still
performed), then merge `metadata_defaults` without overwriting.  Returns
the metadata together with the list of ERROR messages logged. -/
def extract_metadata (pfx : String) (metadata_defaults : Dict (List String))
    (namespace_name name : String) (mdata_list : List MDataLine) :
    Dict (List String) × List String :=
  let init : Dict (List String) := [("id", [pfx ++ namespace_name ++ "#" ++ name])]
  let r := dupLoop (fun k => name ++ ": Metadata key " ++ k ++ " already exists")
    MDataLine.name MDataLine.values mdata_list (init, [])
  (union_dict r.1 metadata_defaults, r.2)

/-- `SpecVocab.extract_entries`: ordered entry-name → scalar mapping,
duplicate entry name logs an ERROR, assignment still performed. -/
def extract_entries (name : String) (entry_list : List EntryLine) :
    Dict String × List String :=
  dupLoop (fun k => name ++ ": Entry " ++ k ++ " already exists")
    EntryLine.name EntryLine.value entry_list ([], [])

/-- The loop of `SpecClass.extract_properties` over the property-usage
blocks.  The `Option String` component models the Python local `_key` of
that function, which is assigned only inside the inner loop over attribute
lines and read when formatting the duplicate-property error message: if it
was never assigned, Python raises `UnboundLocalError`, embedded here as
`Except.error`. -/
def extract_properties_go (property_defaults : Dict (List String)) (clsName : String) :
    List PropUsage → Dict (Dict (List String)) × Option String × List String →
    Except String (Dict (Dict (List String)) × Option String × List String)
  | [], acc => .ok acc
  | p :: rest, (props, lastKey, es) =>
      let r := dupLoop (fun k => clsName ++ ": Attribute key " ++ k ++
          " already exists in data property " ++ p.name)
        MDataLine.name MDataLine.values p.values ([], es)
      let lastKey' :=
        match p.values.getLast? with
        | some av => some av.name
        | none => lastKey
      if Dict.contains props p.name then
        match lastKey' with
        | none => .error "UnboundLocalError: local variable _key referenced before assignment"
        | some k =>
            extract_properties_go property_defaults clsName rest
              (Dict.insert props p.name (union_dict r.1 property_defaults), lastKey',
               r.2 ++ [clsName ++ ": Data property " ++ k ++ " already exists"])
      else
        extract_properties_go property_defaults clsName rest
          (Dict.insert props p.name (union_dict r.1 property_defaults), lastKey', r.2)

/-- The trailing loop of `SpecClass.extract_properties`: for every
property name the class uses, append `namespace:className` to the
registry's reverse index `dataprop_refs`, creating the entry on first
use. -/
def populate_refs (refs : Dict (List String)) (namespace_name clsName : String)
    (props : Dict (Dict (List String))) : Dict (List String) :=
  props.foldl (fun r kv =>
    let r1 := if Dict.contains r kv.1 then r else Dict.insert r kv.1 []
    Dict.insert r1 kv.1
      (Dict.getD r1 kv.1 [] ++ [namespace_name ++ ":" ++ clsName])) refs

/-- `SpecClass.extract_properties` in full: the usage-block loop followed
by the reverse-index population (which is not reached if the loop
raised). -/
def extract_properties (property_defaults : Dict (List String))
    (spec_refs : Dict (List String)) (namespace_name clsName : String)
    (props_list : List PropUsage) :
    Except String (Dict (Dict (List String)) × Dict (List String) × List String) :=
  match extract_properties_go property_defaults clsName props_list ([], none, []) with
  | .error e => .error e
  | .ok (props, _, es) =>
      .ok (props, populate_refs spec_refs namespace_name clsName props, es)

/-- The state of a constructed `SpecClass`. -/
structure SpecClass where
  namespace_name : String
  name : String
  summary : String
  description : String
  metadata : Dict (List String)
  properties : Dict (Dict (List String))
deriving DecidableEq

/-- `SpecClass.__init__`: extract metadata, then property-usage blocks.
Returns the class, the updated reverse index of the owning registry, and
the ERROR messages logged; `Except.error` is the `UnboundLocalError`
escape of `extract_properties`. -/
def SpecClass.construct (pfx : String)
    (metadata_defaults property_defaults : Dict (List String))
    (spec_refs : Dict (List String))
    (namespace_name name summary description : String)
    (metadata : List MDataLine) (props : List PropUsage) :
    Except String (SpecClass × Dict (List String) × List String) :=
  let m := extract_metadata pfx metadata_defaults namespace_name name metadata
  match extract_properties property_defaults spec_refs namespace_name name props with
  | .error e => .error e
  | .ok (pd, refs, e2) =>
      .ok (⟨namespace_name, name, summary, description, m.1, pd⟩, refs, m.2 ++ e2)

/-- The state of a constructed `SpecProperty`. -/
structure SpecProperty where
  namespace_name : String
  name : String
  summary : String
  description : String
  metadata : Dict (List String)
deriving DecidableEq

/-- `SpecProperty.__init__`: metadata extraction only. -/
def SpecProperty.construct (pfx : String) (metadata_defaults : Dict (List String))
    (namespace_name name summary description : String)
    (mdata_list : List MDataLine) : SpecProperty × List String :=
  let m := extract_metadata pfx metadata_defaults namespace_name name mdata_list
  (⟨namespace_name, name, summary, description, m.1⟩, m.2)

/-- The state of a constructed `SpecVocab`. -/
structure SpecVocab where
  namespace_name : String
  name : String
  summary : String
  description : String
  metadata : Dict (List String)
  entries : Dict String
deriving DecidableEq

/-- `SpecVocab.__init__`: metadata extraction, then entry extraction. -/
def SpecVocab.construct (pfx : String) (metadata_defaults : Dict (List String))
    (namespace_name name summary description : String)
    (mdata_list : List MDataLine) (entry_list : List EntryLine) :
    SpecVocab × List String :=
  let m := extract_metadata pfx metadata_defaults namespace_name name mdata_list
  let e := extract_entries name entry_list
  (⟨namespace_name, name, summary, description, m.1, e.1⟩, m.2 ++ e.2)

/-- `SpecClass._gen_rdf(g)`: the triples the class adds to the graph, in
order.  `cur` models `URIRef(self.metadata['id'][0])` (every constructed
entity owns the `id` entry; `getD`/`headD` stand for the two lookups). -/
def SpecClass._gen_rdf (pfx : String) (c : SpecClass) : List Triple :=
  let cur := (Dict.getD c.metadata "id" []).headD ""
  Triple.mk cur "rdf:type" "owl:Class" ::
    (Dict.getD c.metadata "SubclassOf" []).map
      (fun v => Triple.mk cur "rdfs:subClassOf" (gen_rdf_id pfx v c.namespace_name))

/-- `SpecProperty._gen_rdf(g)`: the type triple chosen by the truthiness
of `self.metadata.get('Nature', 'ObjectProperty')` (absent key: the
default, a non-empty string, is truthy; present key: the value list is
truthy iff non-empty), then the `Range` and `Domain` triples. -/
def SpecProperty._gen_rdf (pfx : String) (p : SpecProperty) : List Triple :=
  let cur := (Dict.getD p.metadata "id" []).headD ""
  let natureTruthy :=
    match Dict.lookup p.metadata "Nature" with
    | none => true
    | some vs => !vs.isEmpty
  (if natureTruthy then Triple.mk cur "rdf:type" "owl:ObjectProperty"
   else Triple.mk cur "rdf:type" "owl:DatatypeProperty") ::
  ((Dict.getD p.metadata "Range" []).map
      (fun v => Triple.mk cur "rdfs:range" (gen_rdf_id pfx v p.namespace_name)) ++
   (Dict.getD p.metadata "Domain" []).map
      (fun v => Triple.mk cur "rdfs:domain" (gen_rdf_id pfx v p.namespace_name)))

/-- `SpecVocab._gen_rdf(g)`: the type triple only. -/
def SpecVocab._gen_rdf (v : SpecVocab) : List Triple :=
  let cur := (Dict.getD v.metadata "id" []).headD ""
  [Triple.mk cur "rdf:type" "owl:Class"]

/-- One entry of `Spec.namespaces`: the dict literal built at the end of
`Spec.add_namespace`. -/
structure NamespaceEl where
  name : String
  classes : Dict SpecClass
  properties : Dict SpecProperty
  vocabs : Dict SpecVocab
deriving DecidableEq

/-- The registry state of a `Spec` object: its `namespaces` map and the
global reverse index `dataprop_refs`. -/
structure Spec where
  namespaces : Dict NamespaceEl
  dataprop_refs : Dict (List String)
deriving DecidableEq

/-- `Spec.add_namespace(name, classes, properties, vocabs)`: build the
three member dicts (duplicate entity name within a kind: ERROR logged,
assignment still performed, so the later entity wins the map slot), log an
ERROR if the namespace name is already registered, and store the new
namespace element under the name regardless.  Returns the new registry
state and the ERROR messages logged. -/
def Spec.add_namespace (s : Spec) (name : String) (classes : List SpecClass)
    (properties : List SpecProperty) (vocabs : List SpecVocab) :
    Spec × List String :=
  let rc := dupLoop (fun n => "Duplicate Class object found: " ++ name ++ ":" ++ n)
      SpecClass.name id classes ([], [])
  let rp := dupLoop (fun n => "Duplicate Property object found: " ++ name ++ ":" ++ n)
      SpecProperty.name id properties ([], rc.2)
  let rv := dupLoop (fun n => "Duplicate Vocab object found: " ++ name ++ ":" ++ n)
      SpecVocab.name id vocabs ([], rp.2)
  let el : NamespaceEl := ⟨name, rc.1, rp.1, rv.1⟩
  let es :=
    if Dict.contains s.namespaces name then
      rv.2 ++ ["Namespace with name: " ++ name ++ " already exists"]
    else rv.2
  ({ s with namespaces := Dict.insert s.namespaces name el }, es)

/-- Severity number of `logging.ERROR`. -/
def ERROR_LEVEL : Nat := 40

/-- A filter attached to a logging handler: either an `ErrorFoundFilter`
(with its `worst_level` state) or any other filter. -/
inductive LFilter where
  | errorFound (worst_level : Nat)
  | other
deriving DecidableEq

/-- `isinstance(filter, ErrorFoundFilter)`. -/
def LFilter.isErrorFound : LFilter → Bool
  | .errorFound _ => true
  | .other => false

/-- A handler of the root logger, reduced to its list of filters (the
only part `helper.isError` and `ErrorFoundFilter` interact with). -/
structure Handler where
  filters : List LFilter
deriving DecidableEq

/-- The inner loop of `helper.isError` over one handler's filters: the
first `ErrorFoundFilter` found decides the answer. -/
def isErrorFilters : List LFilter → Option Bool
  | [] => none
  | .errorFound w :: _ => some (decide (ERROR_LEVEL ≤ w))
  | .other :: rest => isErrorFilters rest

/-- `helper.isError()`: scan the root logger's handlers; return
`worst_level >= logging.ERROR` of the first `ErrorFoundFilter`
encountered, or `False` if none is installed anywhere. -/
def isError : List Handler → Bool
  | [] => false
  | h :: rest =>
      match isErrorFilters h.filters with
      | some b => b
      | none => isError rest

/-- `ErrorFoundFilter.filter(record)` applied to one filter: raise its
`worst_level` to the record's level if larger. -/
def recordLevel (levelno : Nat) : LFilter → LFilter
  | .errorFound w => .errorFound (if w < levelno then levelno else w)
  | .other => .other

/-- Emitting one log record of severity `levelno`: it passes through the
filters of every handler of the root logger. -/
def logRecord (levelno : Nat) (handlers : List Handler) : List Handler :=
  handlers.map (fun h => ⟨h.filters.map (recordLevel levelno)⟩)

/-- Emitting a whole run's worth of log records, in order. -/
def applyLogs (levels : List Nat) (handlers : List Handler) : List Handler :=
  levels.foldl (fun hs l => logRecord l hs) handlers

/-- Outcome of an artifact-producing step: either the artifact was
written, or the step returned early after logging one warning and wrote
nothing. -/
inductive ArtifactResult (α : Type u) where
  | written : α → ArtifactResult α
  | abortedWithWarning : String → ArtifactResult α
deriving DecidableEq

/-- The markdown files `Spec.dump_md` writes when it runs: one per class,
property and vocabulary, walking namespaces in registration order. -/
def Spec.mdFiles (out : String) (s : Spec) : List String :=
  s.namespaces.foldl (fun acc kv =>
    acc ++ kv.2.classes.map (fun ckv =>
        out ++ "/" ++ ckv.2.namespace_name ++ "/Classes/" ++ ckv.2.name ++ ".md")
      ++ kv.2.properties.map (fun pkv =>
        out ++ "/" ++ pkv.2.namespace_name ++ "/Properties/" ++ pkv.2.name ++ ".md")
      ++ kv.2.vocabs.map (fun vkv =>
        out ++ "/" ++ vkv.2.namespace_name ++ "/Vocabularies/" ++ vkv.2.name ++ ".md")) []

/-- `Spec.dump_md(args)`: consult `isError()` first; if tainted, log one
warning and write nothing, else write every entity's documentation page. -/
def Spec.dump_md (handlers : List Handler) (out : String) (s : Spec) :
    ArtifactResult (List String) :=
  if isError handlers then
    .abortedWithWarning "Error parsing the spec. Aborting the dump_md..."
  else
    .written (Spec.mdFiles out s)

/-- The graph built by `Spec.gen_rdf` before the error gate: every
namespace in registration order, classes then properties then vocabs. -/
def Spec.buildGraph (pfx : String) (s : Spec) : List Triple :=
  s.namespaces.foldl (fun g kv =>
    g ++ (kv.2.classes.foldl (fun a ckv => a ++ SpecClass._gen_rdf pfx ckv.2) [])
      ++ (kv.2.properties.foldl (fun a pkv => a ++ SpecProperty._gen_rdf pfx pkv.2) [])
      ++ (kv.2.vocabs.foldl (fun a vkv => a ++ SpecVocab._gen_rdf vkv.2) [])) []

/-- `Spec.gen_rdf(args)`: build the graph, then consult `isError()`; if
tainted, log one warning and write no file, else serialize to
`<out>/tst.ttl`. -/
def Spec.gen_rdf (handlers : List Handler) (pfx out : String) (s : Spec) :
    ArtifactResult (String × List Triple) :=
  let g := Spec.buildGraph pfx s
  if isError handlers then
    .abortedWithWarning "Error parsing the spec. Aborting the gen_rdf..."
  else
    .written (out ++ "/tst.ttl", g)

/-- Some handler of the root logger carries an `ErrorFoundFilter`. -/
def hasErrorFound (handlers : List Handler) : Bool :=
  handlers.any (fun h => h.filters.any LFilter.isErrorFound)

/-- The filter records a worst level of at least `n` (trivially true for
non-`ErrorFoundFilter` filters). -/
def filterAtLeast (n : Nat) : LFilter → Bool
  | .errorFound w => decide (n ≤ w)
  | .other => true

/-- Every `ErrorFoundFilter` present has `worst_level ≥ n`. -/
def allErrorFoundAtLeast (n : Nat) (handlers : List Handler) : Bool :=
  handlers.all (fun h => h.filters.all (filterAtLeast n))

/-- No handler carries an `ErrorFoundFilter`. -/
def noErrorFound (handlers : List Handler) : Bool :=
  handlers.all (fun h => h.filters.all (fun f => !LFilter.isErrorFound f))

/-- Scenario-A class: namespace `core`, class `Widget`, no metadata, no
property usages, empty defaults (the state produced by
`SpecClass.construct "P" [] [] [] "core" "Widget" "" "" [] []`). -/
def widgetNoMeta : SpecClass :=
  ⟨"core", "Widget", "", "", [("id", ["P" ++ "core" ++ "#" ++ "Widget"])], []⟩

/-- Scenario-C property: `hasPart` in namespace `core` with
`Domain: [Widget]`, `Range: [core:Gadget]`, empty defaults. -/
def hasPartProp : SpecProperty :=
  (SpecProperty.construct "P" [] "core" "hasPart" "" ""
    [⟨"Domain", ["Widget"]⟩, ⟨"Range", ["core:Gadget"]⟩]).1

/-- Scenario-B class: `Widget` in namespace `core` with
`SubclassOf: [base:Thing]`, no property usages, empty defaults (the state
produced by the corresponding `SpecClass.construct` call). -/
def widgetSub : SpecClass :=
  ⟨"core", "Widget", "", "",
   [("id", ["P" ++ "core" ++ "#" ++ "Widget"]), ("SubclassOf", ["base:Thing"])], []⟩

/-- A class whose `SubclassOf` entry comes from the defaults table, not
from a declared line: the state produced by `SpecClass.construct "P"
[("SubclassOf", ["base:Thing"])] [] [] "core" "Gadget" "" "" [] []`. -/
def gadgetDefaulted : SpecClass :=
  ⟨"core", "Gadget", "", "",
   [("id", ["P" ++ "core" ++ "#" ++ "Gadget"]), ("SubclassOf", ["base:Thing"])], []⟩

/-- The state of `ClassB` in scenario D (second class in namespace `ns`
declaring usage of property `label`). -/
def classB : SpecClass :=
  ⟨"ns", "ClassB", "", "", [("id", ["P" ++ "ns" ++ "#" ++ "ClassB"])], [("label", [])]⟩

/-- A registry that already holds a namespace `ns` (for the C8 witness). -/
def s0reg : Spec := ⟨[("ns", ⟨"ns", [], [], []⟩)], []⟩

/-- Two distinct classes that share the name `A` (for the C8 witness). -/
def cA1 : SpecClass := ⟨"ns", "A", "", "", [], []⟩

/-- Second class named `A`, distinguishable from `cA1` by its summary. -/
def cA2 : SpecClass := ⟨"ns", "A", "second", "", [], []⟩

/-- A registry holding one namespace with one class (for the C10 witness). -/
def specOne : Spec := ⟨[("core", ⟨"core", [("Widget", widgetNoMeta)], [], []⟩)], []⟩

namespace Dict

variable {α : Type u}

theorem lookup_insert_self (d : Dict α) (k : String) (v : α) :
    lookup (insert d k v) k = some v := by
  induction d with
  | nil => simp [insert, lookup]
  | cons kv rest ih =>
      by_cases h : kv.1 = k
      · simp [insert, h, lookup]
      · simp [insert, h, lookup, ih]

theorem lookup_insert_ne (d : Dict α) (k k' : String) (v : α) (h : k ≠ k') :
    lookup (insert d k v) k' = lookup d k' := by
  induction d with
  | nil => simp [insert, lookup, h]
  | cons kv rest ih =>
      by_cases hk : kv.1 = k
      · simp [insert, hk, lookup, h]
      · by_cases hk' : kv.1 = k'
        · simp [insert, hk, lookup, hk', Ne.symm h]
        · simp [insert, hk, lookup, hk', ih]

theorem contains_insert_self (d : Dict α) (k : String) (v : α) :
    contains (insert d k v) k = true := by
  simp [contains, lookup_insert_self]

theorem contains_insert_mono (d : Dict α) (k k' : String) (v : α)
    (h : contains d k' = true) : contains (insert d k v) k' = true := by
  by_cases hk : k = k'
  · subst hk; exact contains_insert_self d k v
  · simpa [contains, lookup_insert_ne d k k' v hk] using h

theorem lookup_append (d₁ d₂ : Dict α) (k : String) :
    lookup (d₁ ++ d₂) k =
      match lookup d₁ k with
      | some v => some v
      | none => lookup d₂ k := by
  induction d₁ with
  | nil => simp [lookup]
  | cons kv rest ih =>
      by_cases h : kv.1 = k
      · simp [lookup, h]
      · simp [lookup, h, ih]

theorem keys_insert_of_contains (d : Dict α) (k : String) (v : α)
    (h : contains d k = true) : keys (insert d k v) = keys d := by
  induction d with
  | nil => simp [contains, lookup] at h
  | cons kv rest ih =>
      by_cases hk : kv.1 = k
      · simp [insert, hk, keys]
      · have h' : contains rest k = true := by
          simpa [contains, lookup, hk] using h
        simp [insert, hk, keys] at ih ⊢
        exact ih h'

theorem keys_insert_of_not_contains (d : Dict α) (k : String) (v : α)
    (h : contains d k = false) : keys (insert d k v) = keys d ++ [k] := by
  induction d with
  | nil => simp [insert, keys]
  | cons kv rest ih =>
      by_cases hk : kv.1 = k
      · simp [contains, lookup, hk] at h
      · have h' : contains rest k = false := by
          simpa [contains, lookup, hk] using h
        simp [insert, hk, keys] at ih ⊢
        exact ih h'

theorem not_mem_keys_of_not_contains (d : Dict α) (k : String)
    (h : contains d k = false) : k ∉ keys d := by
  induction d with
  | nil => simp [keys]
  | cons kv rest ih =>
      by_cases hk : kv.1 = k
      · simp [contains, lookup, hk] at h
      · have h' : contains rest k = false := by
          simpa [contains, lookup, hk] using h
        simp [keys]
        exact ⟨fun hkk => hk hkk.symm, by simpa [keys] using ih h'⟩

theorem nodupKeys_insert (d : Dict α) (k : String) (v : α)
    (h : NodupKeys d) : NodupKeys (insert d k v) := by
  by_cases hc : contains d k = true
  · unfold NodupKeys
    rw [keys_insert_of_contains d k v hc]
    exact h
  · have hc' : contains d k = false := by
      cases hcc : contains d k
      · rfl
      · exact absurd hcc hc
    unfold NodupKeys
    rw [keys_insert_of_not_contains d k v hc']
    have hmem := not_mem_keys_of_not_contains d k hc'
    refine List.Nodup.append h (List.nodup_singleton k) ?_
    intro a ha hb
    simp at hb
    exact hmem (hb ▸ ha)

theorem nodupKeys_nil : NodupKeys ([] : Dict α) := by
  simp [NodupKeys, keys]

end Dict

theorem splitOnChar_ne_nil (c : Char) (l : List Char) : splitOnChar c l ≠ [] := by
  cases l with
  | nil => simp [splitOnChar]
  | cons x xs =>
      by_cases h : x = c <;> simp [splitOnChar, h]

theorem length_splitOnChar (c : Char) (l : List Char) :
    (splitOnChar c l).length = l.count c + 1 := by
  induction l with
  | nil => simp [splitOnChar]
  | cons x xs ih =>
      by_cases h : x = c
      · simp [splitOnChar, h, List.count_cons, ih]
      · cases hs : splitOnChar c xs with
        | nil => exact absurd hs (splitOnChar_ne_nil c xs)
        | cons y ys =>
            have : ys.length + 1 = xs.count c + 1 := by
              simpa [hs] using ih
            simp [splitOnChar, h, hs, List.count_cons]
            omega

theorem splitOnChar_of_not_mem (c : Char) (l : List Char) (h : c ∉ l) :
    splitOnChar c l = [l] := by
  induction l with
  | nil => simp [splitOnChar]
  | cons x xs ih =>
      have hx : x ≠ c := fun hc => h (by simp [hc])
      have hxs : c ∉ xs := fun hc => h (by simp [hc])
      simp [splitOnChar, hx, ih hxs]

theorem splitOnChar_append (c : Char) (a b : List Char) (ha : c ∉ a) :
    splitOnChar c (a ++ c :: b) = a :: splitOnChar c b := by
  induction a with
  | nil => simp [splitOnChar]
  | cons x xs ih =>
      have hx : x ≠ c := fun hc => ha (by simp [hc])
      have hxs : c ∉ xs := fun hc => ha (by simp [hc])
      simp [splitOnChar, hx, ih hxs]

theorem string_mk_data (s : String) : String.mk s.data = s := rfl

theorem union_dict_lookup {α : Type u} (d1 d2 : Dict α) (k : String) :
    Dict.lookup (union_dict d1 d2) k =
      match Dict.lookup d1 k with
      | some v => some v
      | none => Dict.lookup d2 k := by
  induction d2 generalizing d1 with
  | nil => cases h : Dict.lookup d1 k <;> simp [union_dict, h, Dict.lookup]
  | cons kv rest ih =>
      show Dict.lookup (union_dict (if Dict.contains d1 kv.1 then d1 else d1 ++ [kv]) rest) k = _
      by_cases hc : Dict.contains d1 kv.1 = true
      · rw [if_pos hc, ih d1]
        cases h1 : Dict.lookup d1 k with
        | some v => simp
        | none =>
            have hne : kv.1 ≠ k := by
              intro he
              rw [he] at hc
              simp [Dict.contains, h1] at hc
            simp [Dict.lookup, hne]
      · rw [if_neg hc, ih (d1 ++ [kv])]
        have hnone : Dict.lookup d1 kv.1 = none := by
          cases hl : Dict.lookup d1 kv.1
          · rfl
          · exact absurd (by simp [Dict.contains, hl]) hc
        rw [Dict.lookup_append]
        cases h1 : Dict.lookup d1 k with
        | some v => simp
        | none =>
            by_cases hk : kv.1 = k
            · subst hk
              simp [Dict.lookup]
            · simp [Dict.lookup, hk]

theorem dupLoop_append {α β : Type u} (msg : String → String)
    (gn : α → String) (gv : α → β) (a b : List α) (acc : Dict β × List String) :
    dupLoop msg gn gv (a ++ b) acc = dupLoop msg gn gv b (dupLoop msg gn gv a acc) := by
  induction a generalizing acc with
  | nil => simp [dupLoop]
  | cons x rest ih =>
      obtain ⟨d, es⟩ := acc
      simp [dupLoop, ih]

theorem dupLoop_lookup {α β : Type u} (msg : String → String)
    (gn : α → String) (gv : α → β) (items : List α) (d : Dict β)
    (es : List String) (k : String) :
    Dict.lookup (dupLoop msg gn gv items (d, es)).1 k =
      match lastWith gn k items with
      | some x => some (gv x)
      | none => Dict.lookup d k := by
  induction items generalizing d es with
  | nil => simp [dupLoop, lastWith]
  | cons x rest ih =>
      show Dict.lookup (dupLoop msg gn gv rest (Dict.insert d (gn x) (gv x), _)).1 k = _
      rw [ih]
      cases hrest : lastWith gn k rest with
      | some y => simp [lastWith, hrest]
      | none =>
          by_cases hx : gn x = k
          · subst hx
            simp [lastWith, hrest, Dict.lookup_insert_self]
          · simp [lastWith, hrest, hx, Dict.lookup_insert_ne d (gn x) k (gv x) hx]

theorem dupLoop_errors_extend {α β : Type u} (msg : String → String)
    (gn : α → String) (gv : α → β) (items : List α) (d : Dict β)
    (es : List String) :
    ∃ t, (dupLoop msg gn gv items (d, es)).2 = es ++ t := by
  induction items generalizing d es with
  | nil => exact ⟨[], by simp [dupLoop]⟩
  | cons x rest ih =>
      show ∃ t, (dupLoop msg gn gv rest (Dict.insert d (gn x) (gv x),
        if Dict.contains d (gn x) then es ++ [msg (gn x)] else es)).2 = es ++ t
      by_cases hc : Dict.contains d (gn x) = true
      · obtain ⟨t, ht⟩ := ih (Dict.insert d (gn x) (gv x)) (es ++ [msg (gn x)])
        exact ⟨msg (gn x) :: t, by simp [hc, ht]⟩
      · obtain ⟨t, ht⟩ := ih (Dict.insert d (gn x) (gv x)) es
        exact ⟨t, by simp [hc, ht]⟩

theorem dupLoop_errors_grow {α β : Type u} (msg : String → String)
    (gn : α → String) (gv : α → β) (items : List α) (d : Dict β)
    (es : List String) (k : String) (hd : Dict.contains d k = true)
    (hk : k ∈ items.map gn) :
    es.length < (dupLoop msg gn gv items (d, es)).2.length := by
  induction items generalizing d es with
  | nil => simp at hk
  | cons x rest ih =>
      show es.length < (dupLoop msg gn gv rest (Dict.insert d (gn x) (gv x),
        if Dict.contains d (gn x) then es ++ [msg (gn x)] else es)).2.length
      by_cases hx : gn x = k
      · rw [hx, hd, if_pos rfl]
        obtain ⟨t, ht⟩ := dupLoop_errors_extend msg gn gv rest
          (Dict.insert d k (gv x)) (es ++ [msg k])
        rw [ht]
        simp
      · have hk' : k ∈ rest.map gn := by
          rcases List.mem_map.mp hk with ⟨y, hy, hyk⟩
          rcases List.mem_cons.mp hy with hy | hy
          · subst hy; exact absurd hyk hx
          · exact List.mem_map.mpr ⟨y, hy, hyk⟩
        have hd' : Dict.contains (Dict.insert d (gn x) (gv x)) k = true :=
          Dict.contains_insert_mono d (gn x) k (gv x) hd
        by_cases hc : Dict.contains d (gn x) = true
        · rw [if_pos hc]
          have := ih (Dict.insert d (gn x) (gv x)) (es ++ [msg (gn x)]) hd' hk'
          simp at this
          omega
        · rw [if_neg hc]
          exact ih (Dict.insert d (gn x) (gv x)) es hd' hk'

theorem dupLoop_nodupKeys {α β : Type u} (msg : String → String)
    (gn : α → String) (gv : α → β) (items : List α) (d : Dict β)
    (es : List String) (h : Dict.NodupKeys d) :
    Dict.NodupKeys (dupLoop msg gn gv items (d, es)).1 := by
  induction items generalizing d es with
  | nil => simpa [dupLoop] using h
  | cons x rest ih =>
      exact ih (Dict.insert d (gn x) (gv x)) _
        (Dict.nodupKeys_insert d (gn x) (gv x) h)

theorem Dict.insert_insert_self {α : Type u} (d : Dict α) (k : String) (v w : α) :
    Dict.insert (Dict.insert d k v) k w = Dict.insert d k w := by
  induction d with
  | nil => simp [Dict.insert]
  | cons kv rest ih => by_cases h : kv.1 = k <;> simp [Dict.insert, h, ih]

theorem Dict.contains_iff_mem_keys {α : Type u} (d : Dict α) (k : String) :
    Dict.contains d k = true ↔ k ∈ Dict.keys d := by
  induction d with
  | nil => simp [Dict.contains, Dict.lookup, Dict.keys]
  | cons kv rest ih =>
      by_cases h : kv.1 = k
      · simp [Dict.contains, Dict.lookup, Dict.keys, h]
      · have hc : Dict.contains (kv :: rest) k = Dict.contains rest k := by
          simp [Dict.contains, Dict.lookup, h]
        rw [hc, ih]
        simp only [Dict.keys, List.map_cons, List.mem_cons]
        constructor
        · intro hm
          exact Or.inr (by simpa [Dict.keys] using hm)
        · intro hm
          rcases hm with hm | hm
          · exact absurd hm.symm h
          · simpa [Dict.keys] using hm

/-- The last element of `items` named `k` exists whenever some element is
named `k`. -/
theorem lastWith_isSome_of_mem {α : Type u} (gn : α → String) (k : String)
    (items : List α) (h : k ∈ items.map gn) :
    ∃ y, lastWith gn k items = some y := by
  induction items with
  | nil => simp at h
  | cons x rest ih =>
      cases hrest : lastWith gn k rest with
      | some y => exact ⟨y, by simp [lastWith, hrest]⟩
      | none =>
          have hx : gn x = k := by
            rcases List.mem_map.mp h with ⟨z, hz, hzk⟩
            rcases List.mem_cons.mp hz with hz | hz
            · subst hz; exact hzk
            · exfalso
              obtain ⟨y, hy⟩ := ih (List.mem_map.mpr ⟨z, hz, hzk⟩)
              rw [hy] at hrest
              cases hrest
          exact ⟨x, by simp [lastWith, hrest, hx]⟩

/-- A duplicate name inside the declared items always produces at least
one ERROR message, whatever the starting dict. -/
theorem dupLoop_errors_ne_nil_of_dup {α β : Type u} (msg : String → String)
    (gn : α → String) (gv : α → β) (pre : List α) (x : α) (rest : List α)
    (d : Dict β) (hdup : gn x ∈ rest.map gn) :
    (dupLoop msg gn gv (pre ++ x :: rest) (d, [])).2 ≠ [] := by
  rw [dupLoop_append]
  cases hpre : dupLoop msg gn gv pre (d, []) with
  | mk d₁ es₁ =>
      show (dupLoop msg gn gv (x :: rest) (d₁, es₁)).2 ≠ []
      have hcont : Dict.contains (Dict.insert d₁ (gn x) (gv x)) (gn x) = true :=
        Dict.contains_insert_self d₁ (gn x) (gv x)
      show (dupLoop msg gn gv rest (Dict.insert d₁ (gn x) (gv x),
        if Dict.contains d₁ (gn x) then es₁ ++ [msg (gn x)] else es₁)).2 ≠ []
      intro hnil
      have hgrow := dupLoop_errors_grow msg gn gv rest (Dict.insert d₁ (gn x) (gv x))
        (if Dict.contains d₁ (gn x) then es₁ ++ [msg (gn x)] else es₁) (gn x) hcont hdup
      rw [hnil] at hgrow
      simp at hgrow

/-- What `extract_metadata` binds a key to: the last declared line named
`k` wins; a key never declared keeps the synthetic `id` value (for `id`)
or falls back to the defaults table. -/
theorem extract_metadata_lookup (pfx : String) (defaults : Dict (List String))
    (ns nm : String) (mdata : List MDataLine) (k : String) :
    Dict.lookup (extract_metadata pfx defaults ns nm mdata).1 k =
      match lastWith MDataLine.name k mdata with
      | some l => some l.values
      | none =>
          if k = "id" then some [pfx ++ ns ++ "#" ++ nm]
          else Dict.lookup defaults k := by
  show Dict.lookup (union_dict (dupLoop _ MDataLine.name MDataLine.values mdata
    ([("id", [pfx ++ ns ++ "#" ++ nm])], [])).1 defaults) k = _
  rw [union_dict_lookup, dupLoop_lookup]
  cases h : lastWith MDataLine.name k mdata with
  | some l => simp
  | none =>
      by_cases hk : k = "id"
      · subst hk
        simp [Dict.lookup]
      · simp only [Dict.lookup, if_neg (fun he : "id" = k => hk he.symm)]
        cases hd : Dict.lookup defaults k <;> simp [hk]

/-- The synthetic `id` entry survives whenever no declared line is named
`id` (defaults can never overwrite it). -/
theorem extract_metadata_id (pfx : String) (defaults : Dict (List String))
    (ns nm : String) (mdata : List MDataLine)
    (h : ∀ l ∈ mdata, MDataLine.name l ≠ "id") :
    Dict.lookup (extract_metadata pfx defaults ns nm mdata).1 "id" =
      some [pfx ++ ns ++ "#" ++ nm] := by
  rw [extract_metadata_lookup]
  have hnone : lastWith MDataLine.name "id" mdata = none := by
    induction mdata with
    | nil => rfl
    | cons x rest ih =>
        have hx : x.name ≠ "id" := h x (by simp)
        have hrest := ih (fun l hl => h l (by simp [hl]))
        simp [lastWith, hrest, hx]
  simp [hnone]

theorem populate_refs_step (refs : Dict (List String)) (k : String) (e : String) :
    Dict.insert (if Dict.contains refs k then refs else Dict.insert refs k []) k
        (Dict.getD (if Dict.contains refs k then refs else Dict.insert refs k []) k []
          ++ [e]) =
      Dict.insert refs k (Dict.getD refs k [] ++ [e]) := by
  by_cases hc : Dict.contains refs k = true
  · rw [if_pos hc]
  · rw [if_neg hc]
    have hnone : Dict.lookup refs k = none := by
      cases h : Dict.lookup refs k
      · rfl
      · exact absurd (by simp [Dict.contains, h]) hc
    have h1 : Dict.getD (Dict.insert refs k []) k [] = [] := by
      simp [Dict.getD, Dict.lookup_insert_self]
    have h2 : Dict.getD refs k [] = [] := by
      simp [Dict.getD, hnone]
    rw [h1, h2, Dict.insert_insert_self]

theorem populate_refs_lookup (ns nm : String) (props : Dict (Dict (List String))) :
    ∀ refs : Dict (List String), Dict.NodupKeys props → ∀ k : String,
      Dict.lookup (populate_refs refs ns nm props) k =
        if Dict.contains props k then
          some (Dict.getD refs k [] ++ [ns ++ ":" ++ nm])
        else Dict.lookup refs k := by
  induction props with
  | nil =>
      intro refs _ k
      simp [populate_refs, Dict.contains, Dict.lookup]
  | cons kv rest ih =>
      intro refs h k
      have hsplit : kv.1 ∉ (rest.map Prod.fst) ∧ (rest.map Prod.fst).Nodup := by
        simpa [Dict.NodupKeys, Dict.keys] using h
      have hnd : Dict.NodupKeys rest := by
        simpa [Dict.NodupKeys, Dict.keys] using hsplit.2
      have hstep : populate_refs refs ns nm (kv :: rest) =
          populate_refs (Dict.insert refs kv.1
            (Dict.getD refs kv.1 [] ++ [ns ++ ":" ++ nm])) ns nm rest := by
        simp only [populate_refs, List.foldl_cons]
        rw [populate_refs_step]
      rw [hstep, ih _ hnd k]
      by_cases hk : kv.1 = k
      · subst hk
        have hcr : Dict.contains rest kv.1 = false := by
          cases hcc : Dict.contains rest kv.1
          · rfl
          · exact absurd (by simpa [Dict.keys] using
              (Dict.contains_iff_mem_keys rest kv.1).mp hcc) hsplit.1
        have hc1 : Dict.contains (kv :: rest) kv.1 = true := by
          simp [Dict.contains, Dict.lookup]
        rw [hcr, hc1]
        simp [Dict.lookup_insert_self]
      · set V := Dict.getD refs kv.1 [] ++ [ns ++ ":" ++ nm] with hV
        have hlook : Dict.lookup (Dict.insert refs kv.1 V) k = Dict.lookup refs k :=
          Dict.lookup_insert_ne refs kv.1 k V hk
        have hgetD : Dict.getD (Dict.insert refs kv.1 V) k [] = Dict.getD refs k [] := by
          unfold Dict.getD
          rw [hlook]
        have hcont : Dict.contains (kv :: rest) k = Dict.contains rest k := by
          simp [Dict.contains, Dict.lookup, hk]
        rw [hgetD, hlook, hcont]

theorem extract_properties_go_nodup (pdefaults : Dict (List String)) (clsName : String)
    (props_list : List PropUsage) :
    ∀ (acc : Dict (Dict (List String)) × Option String × List String)
      (r : Dict (Dict (List String)) × Option String × List String),
      extract_properties_go pdefaults clsName props_list acc = .ok r →
      Dict.NodupKeys acc.1 → Dict.NodupKeys r.1 := by
  induction props_list with
  | nil =>
      intro acc r hok h
      cases hok
      exact h
  | cons p rest ih =>
      intro acc r hok h
      obtain ⟨props, lastKey, es⟩ := acc
      simp only [extract_properties_go] at hok
      split at hok
      · split at hok
        · cases hok
        · exact ih _ r hok (Dict.nodupKeys_insert _ _ _ h)
      · exact ih _ r hok (Dict.nodupKeys_insert _ _ _ h)

theorem isErrorFound_recordLevel (l : Nat) (f : LFilter) :
    LFilter.isErrorFound (recordLevel l f) = LFilter.isErrorFound f := by
  cases f <;> rfl

theorem any_isErrorFound_map_recordLevel (l : Nat) (fs : List LFilter) :
    (fs.map (recordLevel l)).any LFilter.isErrorFound = fs.any LFilter.isErrorFound := by
  induction fs with
  | nil => rfl
  | cons f rest ih =>
      show (LFilter.isErrorFound (recordLevel l f) ||
        (rest.map (recordLevel l)).any LFilter.isErrorFound) = _
      rw [isErrorFound_recordLevel, ih]
      rfl

theorem all_not_isErrorFound_map_recordLevel (l : Nat) (fs : List LFilter) :
    (fs.map (recordLevel l)).all (fun f => !LFilter.isErrorFound f) =
      fs.all (fun f => !LFilter.isErrorFound f) := by
  induction fs with
  | nil => rfl
  | cons f rest ih =>
      show ((!LFilter.isErrorFound (recordLevel l f)) &&
        (rest.map (recordLevel l)).all (fun f => !LFilter.isErrorFound f)) = _
      rw [isErrorFound_recordLevel, ih]
      rfl

theorem hasErrorFound_logRecord (l : Nat) (hs : List Handler) :
    hasErrorFound (logRecord l hs) = hasErrorFound hs := by
  induction hs with
  | nil => rfl
  | cons hd rest ih =>
      show ((hd.filters.map (recordLevel l)).any LFilter.isErrorFound ||
        hasErrorFound (logRecord l rest)) =
        (hd.filters.any LFilter.isErrorFound || hasErrorFound rest)
      rw [any_isErrorFound_map_recordLevel, ih]

theorem hasErrorFound_applyLogs (levels : List Nat) (hs : List Handler) :
    hasErrorFound (applyLogs levels hs) = hasErrorFound hs := by
  induction levels generalizing hs with
  | nil => rfl
  | cons l rest ih =>
      show hasErrorFound (applyLogs rest (logRecord l hs)) = hasErrorFound hs
      rw [ih, hasErrorFound_logRecord]

theorem noErrorFound_logRecord (l : Nat) (hs : List Handler) :
    noErrorFound (logRecord l hs) = noErrorFound hs := by
  induction hs with
  | nil => rfl
  | cons hd rest ih =>
      show ((hd.filters.map (recordLevel l)).all (fun f => !LFilter.isErrorFound f) &&
        noErrorFound (logRecord l rest)) =
        (hd.filters.all (fun f => !LFilter.isErrorFound f) && noErrorFound rest)
      rw [all_not_isErrorFound_map_recordLevel, ih]

theorem noErrorFound_applyLogs (levels : List Nat) (hs : List Handler) :
    noErrorFound (applyLogs levels hs) = noErrorFound hs := by
  induction levels generalizing hs with
  | nil => rfl
  | cons l rest ih =>
      show noErrorFound (applyLogs rest (logRecord l hs)) = noErrorFound hs
      rw [ih, noErrorFound_logRecord]

theorem filterAtLeast_recordLevel_self (l : Nat) (f : LFilter) :
    filterAtLeast l (recordLevel l f) = true := by
  cases f with
  | errorFound w =>
      simp [filterAtLeast, recordLevel]
      split <;> omega
  | other => rfl

theorem filterAtLeast_recordLevel (n l : Nat) (f : LFilter)
    (h : filterAtLeast n f = true) : filterAtLeast n (recordLevel l f) = true := by
  cases f with
  | errorFound w =>
      simp [filterAtLeast, recordLevel] at h ⊢
      split <;> omega
  | other => rfl

theorem allFilterAtLeast_map_self (l : Nat) (fs : List LFilter) :
    (fs.map (recordLevel l)).all (filterAtLeast l) = true := by
  induction fs with
  | nil => rfl
  | cons f rest ih =>
      show (filterAtLeast l (recordLevel l f) &&
        (rest.map (recordLevel l)).all (filterAtLeast l)) = true
      rw [filterAtLeast_recordLevel_self, ih]
      rfl

theorem allFilterAtLeast_map (n l : Nat) (fs : List LFilter)
    (h : fs.all (filterAtLeast n) = true) :
    (fs.map (recordLevel l)).all (filterAtLeast n) = true := by
  induction fs with
  | nil => rfl
  | cons f rest ih =>
      have h' := (Bool.and_eq_true _ _).mp h
      show (filterAtLeast n (recordLevel l f) &&
        (rest.map (recordLevel l)).all (filterAtLeast n)) = true
      rw [filterAtLeast_recordLevel n l f h'.1, ih h'.2]
      rfl

theorem allErrorFoundAtLeast_logRecord_self (l : Nat) (hs : List Handler) :
    allErrorFoundAtLeast l (logRecord l hs) = true := by
  induction hs with
  | nil => rfl
  | cons hd rest ih =>
      show ((hd.filters.map (recordLevel l)).all (filterAtLeast l) &&
        allErrorFoundAtLeast l (logRecord l rest)) = true
      rw [allFilterAtLeast_map_self, ih]
      rfl

theorem allErrorFoundAtLeast_logRecord (n l : Nat) (hs : List Handler)
    (h : allErrorFoundAtLeast n hs = true) :
    allErrorFoundAtLeast n (logRecord l hs) = true := by
  induction hs with
  | nil => rfl
  | cons hd rest ih =>
      have h' := (Bool.and_eq_true _ _).mp h
      show ((hd.filters.map (recordLevel l)).all (filterAtLeast n) &&
        allErrorFoundAtLeast n (logRecord l rest)) = true
      rw [allFilterAtLeast_map n l hd.filters h'.1, ih h'.2]
      rfl

theorem allErrorFoundAtLeast_applyLogs (n : Nat) (levels : List Nat)
    (hs : List Handler) (h : allErrorFoundAtLeast n hs = true) :
    allErrorFoundAtLeast n (applyLogs levels hs) = true := by
  induction levels generalizing hs with
  | nil => exact h
  | cons l rest ih =>
      exact ih (logRecord l hs) (allErrorFoundAtLeast_logRecord n l hs h)

theorem allErrorFoundAtLeast_applyLogs_mem (levels : List Nat) (hs : List Handler)
    (hmem : ERROR_LEVEL ∈ levels) :
    allErrorFoundAtLeast ERROR_LEVEL (applyLogs levels hs) = true := by
  induction levels generalizing hs with
  | nil => simp at hmem
  | cons l rest ih =>
      rcases List.mem_cons.mp hmem with he | he
      · subst he
        exact allErrorFoundAtLeast_applyLogs ERROR_LEVEL rest _
          (allErrorFoundAtLeast_logRecord_self ERROR_LEVEL hs)
      · exact ih (logRecord l hs) he

theorem isErrorFilters_none_of_no_errorFound (fs : List LFilter)
    (h : fs.all (fun f => !LFilter.isErrorFound f) = true) :
    isErrorFilters fs = none := by
  induction fs with
  | nil => rfl
  | cons f rest ih =>
      cases f with
      | errorFound w => simp [LFilter.isErrorFound] at h
      | other =>
          show isErrorFilters rest = none
          exact ih (by simpa [LFilter.isErrorFound] using h)

theorem isError_false_of_no_errorFound (hs : List Handler)
    (h : noErrorFound hs = true) : isError hs = false := by
  induction hs with
  | nil => rfl
  | cons hd rest ih =>
      have h' := (Bool.and_eq_true _ _).mp h
      have hn := isErrorFilters_none_of_no_errorFound hd.filters h'.1
      show (match isErrorFilters hd.filters with
        | some b => b
        | none => isError rest) = false
      rw [hn]
      exact ih h'.2

theorem isErrorFilters_some_true (fs : List LFilter)
    (hall : fs.all (filterAtLeast ERROR_LEVEL) = true)
    (hhas : fs.any LFilter.isErrorFound = true) :
    isErrorFilters fs = some true := by
  induction fs with
  | nil => simp at hhas
  | cons f rest ih =>
      have h1 := (Bool.and_eq_true _ _).mp hall
      cases f with
      | errorFound w =>
          show some (decide (ERROR_LEVEL ≤ w)) = some true
          rw [show decide (ERROR_LEVEL ≤ w) = true from h1.1]
      | other =>
          show isErrorFilters rest = some true
          exact ih h1.2 (by simpa [LFilter.isErrorFound] using hhas)

theorem isError_true_of (hs : List Handler)
    (hhas : hasErrorFound hs = true)
    (hall : allErrorFoundAtLeast ERROR_LEVEL hs = true) :
    isError hs = true := by
  induction hs with
  | nil => simp [hasErrorFound] at hhas
  | cons hd rest ih =>
      have hallc := (Bool.and_eq_true _ _).mp hall
      have h1 : hd.filters.all (filterAtLeast ERROR_LEVEL) = true := hallc.1
      show (match isErrorFilters hd.filters with
        | some b => b
        | none => isError rest) = true
      cases hany : hd.filters.any LFilter.isErrorFound with
      | true =>
          rw [isErrorFilters_some_true hd.filters h1 hany]
      | false =>
          have hn : isErrorFilters hd.filters = none := by
            apply isErrorFilters_none_of_no_errorFound
            simp only [List.all_eq_true]
            intro f hf
            have hne : ¬ LFilter.isErrorFound f = true := by
              intro hft
              have hcontra := List.any_eq_true.mpr ⟨f, hf, hft⟩
              rw [hcontra] at hany
              cases hany
            simp [Bool.not_eq_true] at hne
            simp [hne]
          rw [hn]
          apply ih
          · have hor := (Bool.or_eq_true _ _).mp hhas
            rcases hor with hor | hor
            · have hor' : hd.filters.any LFilter.isErrorFound = true := hor
              rw [hor'] at hany
              cases hany
            · exact hor
          · exact hallc.2

/-- C1: for every reference string `r` and context namespace `N`: with two
or more colon separators, `gen_rdf_id` returns `r` unchanged; with exactly
one colon splitting `r` as `a:b`, it returns `<prefix>a#b` regardless of
`N`; with no colon, it returns `<prefix>N#r`. -/
theorem C1_gen_rdf_id_resolution (pfx N r : String) :
    (2 ≤ r.data.count ':' → gen_rdf_id pfx r N = r) ∧
    (∀ a b : List Char, r.data = a ++ ':' :: b → ':' ∉ a → ':' ∉ b →
      gen_rdf_id pfx r N = pfx ++ String.mk a ++ "#" ++ String.mk b) ∧
    (':' ∉ r.data → gen_rdf_id pfx r N = pfx ++ N ++ "#" ++ r) := by
  refine ⟨?_, ?_, ?_⟩
  · intro h
    have hgt : (splitOnChar ':' r.data).length > 2 := by
      rw [length_splitOnChar]
      omega
    simp [gen_rdf_id, hgt]
  · intro a b hab ha hb
    have hsplit : splitOnChar ':' r.data = [a, b] := by
      rw [hab, splitOnChar_append ':' a b ha, splitOnChar_of_not_mem ':' b hb]
    have hlen : ([a, b] : List (List Char)).length = 2 := rfl
    simp [gen_rdf_id, hsplit]
  · intro h
    have hsplit : splitOnChar ':' r.data = [r.data] :=
      splitOnChar_of_not_mem ':' r.data h
    simp [gen_rdf_id, hsplit, string_mk_data]

/-- Witness for C1 at concrete references of the three shapes. -/
theorem C1_gen_rdf_id_resolution_witness :
    (2 ≤ ("a:b:c".data.count ':') ∧ gen_rdf_id "P" "a:b:c" "ns" = "a:b:c") ∧
    gen_rdf_id "P" "base:Thing" "core" =
      "P" ++ String.mk "base".data ++ "#" ++ String.mk "Thing".data ∧
    gen_rdf_id "P" "Widget" "core" = "P" ++ "core" ++ "#" ++ "Widget" :=
  ⟨⟨by decide, (C1_gen_rdf_id_resolution "P" "ns" "a:b:c").1 (by decide)⟩,
   (C1_gen_rdf_id_resolution "P" "core" "base:Thing").2.1 "base".data "Thing".data
     (by decide) (by decide) (by decide),
   (C1_gen_rdf_id_resolution "P" "core" "Widget").2.2 (by decide)⟩

/-- C6 (failing input): constructing a class from well-formed records
whose property-usage blocks are `p` (no attribute lines) twice makes
`extract_properties` hit the duplicate-property branch with the local
`_key` never assigned, so the construction raises instead of running to
completion — contradicting the spec's no-raise guarantee. -/
theorem C6_construct_raises_on_duplicate_usage :
    SpecClass.construct "P" [] [] [] "ns" "C" "" "" []
        [⟨"p", []⟩, ⟨"p", []⟩] =
      .error "UnboundLocalError: local variable _key referenced before assignment" := by
  rfl

/-- C2 counterexample: declaring metadata key `Foo` twice leaves the
SECOND value in the entity's metadata, not the first, so "the entity keeps
the first declared value" is false (an ERROR is still recorded). -/
theorem C2_first_value_counterexample :
    Dict.lookup (extract_metadata "P" [] "ns" "E"
        [⟨"Foo", ["a"]⟩, ⟨"Foo", ["b"]⟩]).1 "Foo" = some ["b"] ∧
    (["b"] ≠ (["a"] : List String)) ∧
    (extract_metadata "P" [] "ns" "E" [⟨"Foo", ["a"]⟩, ⟨"Foo", ["b"]⟩]).2 ≠ [] := by
  refine ⟨by decide, by decide, by decide⟩

/-- C2 (amended): when the same key is declared twice during construction
of one entity — a metadata key, or an entry name on a vocabulary — the
entity keeps the LAST declared value for that key (each assignment
overwrites in place), an ERROR diagnostic is recorded, and construction
continues with the remaining declarations. -/
theorem C2_duplicate_keeps_last :
    (∀ (pfx : String) (defaults : Dict (List String)) (ns nm : String)
        (pre : List MDataLine) (l : MDataLine) (rest : List MDataLine),
      l.name ∈ rest.map MDataLine.name →
      Dict.lookup (extract_metadata pfx defaults ns nm (pre ++ l :: rest)).1 l.name =
          (lastWith MDataLine.name l.name (pre ++ l :: rest)).map MDataLine.values ∧
        (extract_metadata pfx defaults ns nm (pre ++ l :: rest)).2 ≠ []) ∧
    (∀ (nm : String) (pre : List EntryLine) (e : EntryLine) (rest : List EntryLine),
      e.name ∈ rest.map EntryLine.name →
      Dict.lookup (extract_entries nm (pre ++ e :: rest)).1 e.name =
          (lastWith EntryLine.name e.name (pre ++ e :: rest)).map EntryLine.value ∧
        (extract_entries nm (pre ++ e :: rest)).2 ≠ []) := by
  constructor
  · intro pfx defaults ns nm pre l rest hdup
    constructor
    · rw [extract_metadata_lookup]
      have hmem : l.name ∈ (pre ++ l :: rest).map MDataLine.name := by
        simp
      obtain ⟨y, hy⟩ := lastWith_isSome_of_mem MDataLine.name l.name _ hmem
      rw [hy]
      simp
    · exact dupLoop_errors_ne_nil_of_dup _ MDataLine.name MDataLine.values
        pre l rest _ hdup
  · intro nm pre e rest hdup
    constructor
    · show Dict.lookup (dupLoop _ EntryLine.name EntryLine.value
        (pre ++ e :: rest) ([], [])).1 e.name = _
      rw [dupLoop_lookup]
      have hmem : e.name ∈ (pre ++ e :: rest).map EntryLine.name := by
        simp
      obtain ⟨y, hy⟩ := lastWith_isSome_of_mem EntryLine.name e.name _ hmem
      rw [hy]
      simp
    · exact dupLoop_errors_ne_nil_of_dup _ EntryLine.name EntryLine.value
        pre e rest _ hdup

/-- Witness for C2 (amended) at concrete duplicate declarations. -/
theorem C2_duplicate_keeps_last_witness :
    ("Foo" ∈ ([⟨"Foo", ["b"]⟩] : List MDataLine).map MDataLine.name) ∧
    (Dict.lookup (extract_metadata "P" [] "ns" "E"
        [⟨"Foo", ["a"]⟩, ⟨"Foo", ["b"]⟩]).1 "Foo" =
        (lastWith MDataLine.name "Foo"
          [⟨"Foo", ["a"]⟩, ⟨"Foo", ["b"]⟩]).map MDataLine.values ∧
      (extract_metadata "P" [] "ns" "E" [⟨"Foo", ["a"]⟩, ⟨"Foo", ["b"]⟩]).2 ≠ []) ∧
    ("x" ∈ ([⟨"x", "2"⟩] : List EntryLine).map EntryLine.name) ∧
    (Dict.lookup (extract_entries "V" [⟨"x", "1"⟩, ⟨"x", "2"⟩]).1 "x" =
        (lastWith EntryLine.name "x" [⟨"x", "1"⟩, ⟨"x", "2"⟩]).map EntryLine.value ∧
      (extract_entries "V" [⟨"x", "1"⟩, ⟨"x", "2"⟩]).2 ≠ []) :=
  ⟨by decide,
   C2_duplicate_keeps_last.1 "P" [] "ns" "E" [] ⟨"Foo", ["a"]⟩ [⟨"Foo", ["b"]⟩] (by decide),
   by decide,
   C2_duplicate_keeps_last.2 "V" [] ⟨"x", "1"⟩ [⟨"x", "2"⟩] (by decide)⟩

/-- C3 counterexample: an input metadata declaration named `id` DOES
change the synthetic `id` entry (with an ERROR recorded), so "no input
metadata declaration can change it" is false. -/
theorem C3_id_override_counterexample :
    Dict.lookup (SpecProperty.construct "P" [] "core" "hasPart" "" ""
        [⟨"id", ["hacked"]⟩]).1.metadata "id" = some ["hacked"] ∧
    some ["hacked"] ≠ some ["P" ++ "core" ++ "#" ++ "hasPart"] := by
  refine ⟨by decide, by decide⟩

/-- C3 (amended): every constructed Class, Property, and Vocabulary has an
`id` metadata entry `<prefix><namespace>#<name>`, set before declared
metadata is applied, present even with no declared metadata and no
defaults, and never changed by defaults — but an input metadata
declaration named `id` does overwrite it; the invariant therefore holds
whenever no declared metadata line is named `id`. -/
theorem C3_id_invariant :
    (∀ (pfx : String) (mdefaults pdefaults spec_refs : Dict (List String))
        (ns nm sm ds : String) (mdata : List MDataLine) (props : List PropUsage)
        (c : SpecClass) (refs : Dict (List String)) (errs : List String),
      SpecClass.construct pfx mdefaults pdefaults spec_refs ns nm sm ds mdata props =
        .ok (c, refs, errs) →
      (∀ l ∈ mdata, MDataLine.name l ≠ "id") →
      Dict.lookup c.metadata "id" = some [pfx ++ ns ++ "#" ++ nm]) ∧
    (∀ (pfx : String) (mdefaults : Dict (List String)) (ns nm sm ds : String)
        (mdata : List MDataLine),
      (∀ l ∈ mdata, MDataLine.name l ≠ "id") →
      Dict.lookup (SpecProperty.construct pfx mdefaults ns nm sm ds mdata).1.metadata
        "id" = some [pfx ++ ns ++ "#" ++ nm]) ∧
    (∀ (pfx : String) (mdefaults : Dict (List String)) (ns nm sm ds : String)
        (mdata : List MDataLine) (entries : List EntryLine),
      (∀ l ∈ mdata, MDataLine.name l ≠ "id") →
      Dict.lookup (SpecVocab.construct pfx mdefaults ns nm sm ds mdata entries).1.metadata
        "id" = some [pfx ++ ns ++ "#" ++ nm]) := by
  refine ⟨?_, ?_, ?_⟩
  · intro pfx mdefaults pdefaults spec_refs ns nm sm ds mdata props c refs errs hok hid
    have hmeta : c.metadata = (extract_metadata pfx mdefaults ns nm mdata).1 := by
      unfold SpecClass.construct at hok
      cases hp : extract_properties pdefaults spec_refs ns nm props with
      | error e => rw [hp] at hok; cases hok
      | ok v =>
          rw [hp] at hok
          obtain ⟨pd, refs2, e2⟩ := v
          cases hok
          rfl
    rw [hmeta]
    exact extract_metadata_id pfx mdefaults ns nm mdata hid
  · intro pfx mdefaults ns nm sm ds mdata hid
    exact extract_metadata_id pfx mdefaults ns nm mdata hid
  · intro pfx mdefaults ns nm sm ds mdata entries hid
    exact extract_metadata_id pfx mdefaults ns nm mdata hid

/-- Witness for C3 (amended): no metadata declared, no defaults — the
synthetic `id` entry is still there, for all three entity kinds. -/
theorem C3_id_invariant_witness :
    Dict.lookup widgetNoMeta.metadata "id" = some ["P" ++ "core" ++ "#" ++ "Widget"] ∧
    Dict.lookup (SpecProperty.construct "P" [] "core" "hasPart" "" "" []).1.metadata "id" =
      some ["P" ++ "core" ++ "#" ++ "hasPart"] ∧
    Dict.lookup (SpecVocab.construct "P" [] "core" "Colors" "" "" [] []).1.metadata "id" =
      some ["P" ++ "core" ++ "#" ++ "Colors"] :=
  ⟨C3_id_invariant.1 "P" [] [] [] "core" "Widget" "" "" [] [] widgetNoMeta [] []
     (by rfl) (by intro l hl; cases hl),
   C3_id_invariant.2.1 "P" [] "core" "hasPart" "" "" [] (by intro l hl; cases hl),
   C3_id_invariant.2.2 "P" [] "core" "Colors" "" "" [] [] (by intro l hl; cases hl)⟩

/-- C5: a constructed Property contributes `(id, rdf:type,
owl:ObjectProperty)` when `Nature` is absent or its value list is
non-empty (truthy), `(id, rdf:type, owl:DatatypeProperty)` when the value
is falsy (empty list); and one `rdfs:range` / `rdfs:domain` triple per
`Range` / `Domain` value, resolved against the property's own
namespace. -/
theorem C5_property_triples (pfx : String) (p : SpecProperty) :
    ((Dict.lookup p.metadata "Nature" = none ∨
        (∃ vs, Dict.lookup p.metadata "Nature" = some vs ∧ vs ≠ [])) →
      Triple.mk ((Dict.getD p.metadata "id" []).headD "") "rdf:type" "owl:ObjectProperty"
        ∈ SpecProperty._gen_rdf pfx p) ∧
    (Dict.lookup p.metadata "Nature" = some [] →
      Triple.mk ((Dict.getD p.metadata "id" []).headD "") "rdf:type" "owl:DatatypeProperty"
        ∈ SpecProperty._gen_rdf pfx p) ∧
    (∀ v ∈ Dict.getD p.metadata "Range" [],
      Triple.mk ((Dict.getD p.metadata "id" []).headD "") "rdfs:range"
        (gen_rdf_id pfx v p.namespace_name) ∈ SpecProperty._gen_rdf pfx p) ∧
    (∀ v ∈ Dict.getD p.metadata "Domain" [],
      Triple.mk ((Dict.getD p.metadata "id" []).headD "") "rdfs:domain"
        (gen_rdf_id pfx v p.namespace_name) ∈ SpecProperty._gen_rdf pfx p) := by
  refine ⟨?_, ?_, ?_, ?_⟩
  · rintro (h | ⟨vs, hvs, hne⟩)
    · simp only [SpecProperty._gen_rdf, h]
      exact List.mem_cons_self _ _
    · cases vs with
      | nil => exact absurd rfl hne
      | cons a t =>
          simp only [SpecProperty._gen_rdf, hvs, List.isEmpty_cons, Bool.not_false,
            if_true]
          exact List.mem_cons_self _ _
  · intro h
    simp only [SpecProperty._gen_rdf, h, List.isEmpty_nil, Bool.not_true,
      Bool.false_eq_true, if_false]
    exact List.mem_cons_self _ _
  · intro v hv
    simp only [SpecProperty._gen_rdf]
    exact List.mem_cons_of_mem _
      (List.mem_append_left _ (List.mem_map.mpr ⟨v, hv, rfl⟩))
  · intro v hv
    simp only [SpecProperty._gen_rdf]
    exact List.mem_cons_of_mem _
      (List.mem_append_right _ (List.mem_map.mpr ⟨v, hv, rfl⟩))

/-- Witness for C5 on the scenario-C property. -/
theorem C5_property_triples_witness :
    (Dict.lookup hasPartProp.metadata "Nature" = none) ∧
    Triple.mk ((Dict.getD hasPartProp.metadata "id" []).headD "") "rdf:type"
      "owl:ObjectProperty" ∈ SpecProperty._gen_rdf "P" hasPartProp ∧
    ("core:Gadget" ∈ Dict.getD hasPartProp.metadata "Range" []) ∧
    Triple.mk ((Dict.getD hasPartProp.metadata "id" []).headD "") "rdfs:range"
      (gen_rdf_id "P" "core:Gadget" hasPartProp.namespace_name)
      ∈ SpecProperty._gen_rdf "P" hasPartProp ∧
    ("Widget" ∈ Dict.getD hasPartProp.metadata "Domain" []) ∧
    Triple.mk ((Dict.getD hasPartProp.metadata "id" []).headD "") "rdfs:domain"
      (gen_rdf_id "P" "Widget" hasPartProp.namespace_name)
      ∈ SpecProperty._gen_rdf "P" hasPartProp :=
  ⟨by decide,
   (C5_property_triples "P" hasPartProp).1 (Or.inl (by decide)),
   by decide,
   (C5_property_triples "P" hasPartProp).2.2.1 "core:Gadget" (by decide),
   by decide,
   (C5_property_triples "P" hasPartProp).2.2.2 "Widget" (by decide)⟩

/-- C7: a constructed Class contributes exactly `(id, rdf:type,
owl:Class)` followed by one `(id, rdfs:subClassOf, resolve(v, namespace))`
triple per value of the effective `SubclassOf` metadata — the last
declared `SubclassOf` line if one exists, else the defaults-table entry
if one exists, else none (so a class with no `SubclassOf` anywhere emits
the type triple alone) — always resolved against the class's own
namespace. -/
theorem C7_class_triples
    (pfx : String) (mdefaults pdefaults spec_refs : Dict (List String))
    (ns nm sm ds : String) (mdata : List MDataLine) (props : List PropUsage)
    (c : SpecClass) (refs : Dict (List String)) (errs : List String)
    (hok : SpecClass.construct pfx mdefaults pdefaults spec_refs ns nm sm ds mdata
      props = .ok (c, refs, errs))
    (hid : ∀ l ∈ mdata, MDataLine.name l ≠ "id") :
    SpecClass._gen_rdf pfx c =
      Triple.mk (pfx ++ ns ++ "#" ++ nm) "rdf:type" "owl:Class" ::
        (match lastWith MDataLine.name "SubclassOf" mdata with
          | some l => MDataLine.values l
          | none => (Dict.lookup mdefaults "SubclassOf").getD []).map
          (fun v =>
            Triple.mk (pfx ++ ns ++ "#" ++ nm) "rdfs:subClassOf"
              (gen_rdf_id pfx v ns)) := by
  have hstate : c.metadata = (extract_metadata pfx mdefaults ns nm mdata).1 ∧
      c.namespace_name = ns := by
    unfold SpecClass.construct at hok
    cases hp : extract_properties pdefaults spec_refs ns nm props with
    | error e => rw [hp] at hok; cases hok
    | ok v =>
        rw [hp] at hok
        obtain ⟨pd, refs2, e2⟩ := v
        cases hok
        exact ⟨rfl, rfl⟩
  obtain ⟨hm, hns⟩ := hstate
  have hidv : Dict.lookup c.metadata "id" = some [pfx ++ ns ++ "#" ++ nm] := by
    rw [hm]
    exact extract_metadata_id pfx mdefaults ns nm mdata hid
  have hsubv : Dict.lookup c.metadata "SubclassOf" =
      match lastWith MDataLine.name "SubclassOf" mdata with
      | some l => some (MDataLine.values l)
      | none => Dict.lookup mdefaults "SubclassOf" := by
    rw [hm, extract_metadata_lookup]
    cases hl : lastWith MDataLine.name "SubclassOf" mdata with
    | some y => rfl
    | none => rw [if_neg (by decide : ¬ ("SubclassOf" = "id"))]
  have hgid : Dict.getD c.metadata "id" [] = [pfx ++ ns ++ "#" ++ nm] := by
    simp [Dict.getD, hidv]
  have hgsub : Dict.getD c.metadata "SubclassOf" [] =
      (match lastWith MDataLine.name "SubclassOf" mdata with
        | some l => MDataLine.values l
        | none => (Dict.lookup mdefaults "SubclassOf").getD []) := by
    unfold Dict.getD
    rw [hsubv]
    cases lastWith MDataLine.name "SubclassOf" mdata with
    | some y => rfl
    | none => rfl
  simp only [SpecClass._gen_rdf, hgid, hgsub, hns, List.headD_cons]

/-- Witness for C7, covering the three `SubclassOf` states: declared
(scenario B, the subclass edge resolves to `<prefix>base#Thing`), absent
everywhere (scenario A, exactly the type triple), and supplied by the
defaults table. -/
theorem C7_class_triples_witness :
    (SpecClass._gen_rdf "P" widgetSub =
      Triple.mk ("P" ++ "core" ++ "#" ++ "Widget") "rdf:type" "owl:Class" ::
        (["base:Thing"] : List String).map (fun v =>
          Triple.mk ("P" ++ "core" ++ "#" ++ "Widget") "rdfs:subClassOf"
            (gen_rdf_id "P" v "core"))) ∧
    (SpecClass._gen_rdf "P" widgetNoMeta =
      [Triple.mk ("P" ++ "core" ++ "#" ++ "Widget") "rdf:type" "owl:Class"]) ∧
    (SpecClass._gen_rdf "P" gadgetDefaulted =
      Triple.mk ("P" ++ "core" ++ "#" ++ "Gadget") "rdf:type" "owl:Class" ::
        (["base:Thing"] : List String).map (fun v =>
          Triple.mk ("P" ++ "core" ++ "#" ++ "Gadget") "rdfs:subClassOf"
            (gen_rdf_id "P" v "core"))) :=
  ⟨C7_class_triples "P" [] [] [] "core" "Widget" "" ""
      [⟨"SubclassOf", ["base:Thing"]⟩] [] widgetSub [] [] (by rfl) (by decide),
   C7_class_triples "P" [] [] [] "core" "Widget" "" "" [] [] widgetNoMeta [] []
      (by rfl) (by intro l hl; cases hl),
   C7_class_triples "P" [("SubclassOf", ["base:Thing"])] [] [] "core" "Gadget" "" ""
      [] [] gadgetDefaulted [] [] (by rfl) (by intro l hl; cases hl)⟩

/-- C9: after a class is constructed, the registry's reverse index maps
every property name the class uses to its old list (created empty on
first use) with `<namespace>:<className>` appended once; all other keys
are untouched. -/
theorem C9_reverse_index
    (pfx : String) (mdefaults pdefaults spec_refs : Dict (List String))
    (ns nm sm ds : String) (mdata : List MDataLine) (props : List PropUsage)
    (c : SpecClass) (refs : Dict (List String)) (errs : List String)
    (hok : SpecClass.construct pfx mdefaults pdefaults spec_refs ns nm sm ds mdata
      props = .ok (c, refs, errs)) :
    ∀ k, Dict.lookup refs k =
      if Dict.contains c.properties k then
        some (Dict.getD spec_refs k [] ++ [ns ++ ":" ++ nm])
      else Dict.lookup spec_refs k := by
  unfold SpecClass.construct at hok
  cases hp : extract_properties pdefaults spec_refs ns nm props with
  | error e => rw [hp] at hok; cases hok
  | ok v =>
      rw [hp] at hok
      obtain ⟨pd, refs2, e2⟩ := v
      cases hok
      unfold extract_properties at hp
      cases hgo : extract_properties_go pdefaults nm props ([], none, []) with
      | error e => rw [hgo] at hp; cases hp
      | ok w =>
          rw [hgo] at hp
          obtain ⟨pd2, lk, es⟩ := w
          simp only [Except.ok.injEq, Prod.mk.injEq] at hp
          obtain ⟨hpd, hrefs, hes⟩ := hp
          subst hpd
          subst hrefs
          have hnd : Dict.NodupKeys pd2 :=
            extract_properties_go_nodup pdefaults nm props ([], none, [])
              (pd2, lk, es) hgo Dict.nodupKeys_nil
          intro k
          exact populate_refs_lookup ns nm pd2 spec_refs hnd k

/-- Witness for C9: with `ClassA` already indexed under `label`,
constructing `ClassB` appends `ns:ClassB`, giving the declaration-order
list `[ns:ClassA, ns:ClassB]`. -/
theorem C9_reverse_index_witness :
    (Dict.lookup [("label", ["ns:ClassA", "ns:ClassB"])] "label" =
      if Dict.contains classB.properties "label" then
        some (Dict.getD [("label", ["ns:ClassA"])] "label" [] ++ ["ns" ++ ":" ++ "ClassB"])
      else Dict.lookup [("label", ["ns:ClassA"])] "label") ∧
    Dict.lookup [("label", ["ns:ClassA", "ns:ClassB"])] "label" =
      some ["ns:ClassA", "ns:ClassB"] :=
  ⟨C9_reverse_index "P" [] [] [("label", ["ns:ClassA"])] "ns" "ClassB" "" "" []
      [⟨"label", []⟩] classB [("label", ["ns:ClassA", "ns:ClassB"])] [] (by rfl) "label",
   by decide⟩

theorem append_ne_nil_left {α : Type u} (l t : List α) (h : l ≠ []) : l ++ t ≠ [] := by
  cases l with
  | nil => exact absurd rfl h
  | cons a l2 => simp

theorem dupLoop_errors_longer_of_dup {α β : Type u} (msg : String → String)
    (gn : α → String) (gv : α → β) (pre : List α) (x : α) (rest : List α)
    (d : Dict β) (es : List String) (hdup : gn x ∈ rest.map gn) :
    es.length < (dupLoop msg gn gv (pre ++ x :: rest) (d, es)).2.length := by
  rw [dupLoop_append]
  cases hpre : dupLoop msg gn gv pre (d, es) with
  | mk d₁ es₁ =>
      have hext : ∃ t, es₁ = es ++ t := by
        obtain ⟨t, ht⟩ := dupLoop_errors_extend msg gn gv pre d es
        exact ⟨t, by rw [← ht, hpre]⟩
      obtain ⟨t0, ht0⟩ := hext
      have h1 : es₁.length = es.length + t0.length := by
        rw [ht0, List.length_append]
      have hcont : Dict.contains (Dict.insert d₁ (gn x) (gv x)) (gn x) = true :=
        Dict.contains_insert_self d₁ (gn x) (gv x)
      show es.length < (dupLoop msg gn gv rest (Dict.insert d₁ (gn x) (gv x),
        if Dict.contains d₁ (gn x) then es₁ ++ [msg (gn x)] else es₁)).2.length
      have hgrow := dupLoop_errors_grow msg gn gv rest (Dict.insert d₁ (gn x) (gv x))
        (if Dict.contains d₁ (gn x) then es₁ ++ [msg (gn x)] else es₁) (gn x) hcont hdup
      have hle : es.length ≤
          (if Dict.contains d₁ (gn x) then es₁ ++ [msg (gn x)] else es₁).length := by
        by_cases hcd : Dict.contains d₁ (gn x) = true
        · rw [if_pos hcd, List.length_append, h1]
          omega
        · rw [if_neg hcd, h1]
          omega
      omega

theorem add_namespace_errors_eq (s : Spec) (name : String)
    (classes : List SpecClass) (properties : List SpecProperty)
    (vocabs : List SpecVocab) :
    ∃ t, (Spec.add_namespace s name classes properties vocabs).2 =
      (dupLoop (fun n => "Duplicate Vocab object found: " ++ name ++ ":" ++ n)
        SpecVocab.name id vocabs ([],
          (dupLoop (fun n => "Duplicate Property object found: " ++ name ++ ":" ++ n)
            SpecProperty.name id properties ([],
              (dupLoop (fun n => "Duplicate Class object found: " ++ name ++ ":" ++ n)
                SpecClass.name id classes ([], [])).2)).2)).2 ++ t := by
  have heq : (Spec.add_namespace s name classes properties vocabs).2 =
      if Dict.contains s.namespaces name then
        (dupLoop (fun n => "Duplicate Vocab object found: " ++ name ++ ":" ++ n)
          SpecVocab.name id vocabs ([],
            (dupLoop (fun n => "Duplicate Property object found: " ++ name ++ ":" ++ n)
              SpecProperty.name id properties ([],
                (dupLoop (fun n => "Duplicate Class object found: " ++ name ++ ":" ++ n)
                  SpecClass.name id classes ([], [])).2)).2)).2 ++
          ["Namespace with name: " ++ name ++ " already exists"]
      else
        (dupLoop (fun n => "Duplicate Vocab object found: " ++ name ++ ":" ++ n)
          SpecVocab.name id vocabs ([],
            (dupLoop (fun n => "Duplicate Property object found: " ++ name ++ ":" ++ n)
              SpecProperty.name id properties ([],
                (dupLoop (fun n => "Duplicate Class object found: " ++ name ++ ":" ++ n)
                  SpecClass.name id classes ([], [])).2)).2)).2 := rfl
  rw [heq]
  by_cases hc : Dict.contains s.namespaces name = true
  · rw [if_pos hc]
    exact ⟨["Namespace with name: " ++ name ++ " already exists"], rfl⟩
  · rw [if_neg hc]
    exact ⟨[], by simp⟩

/-- C8: `add_namespace` keeps the LAST entity registered under a
duplicated name within each kind (while recording an ERROR), records an
ERROR when the namespace name already exists (while replacing the map
entry with the new namespace element), and always completes the
registration. -/
theorem C8_registry_keep_last_and_errors
    (s : Spec) (name : String) (classes : List SpecClass)
    (properties : List SpecProperty) (vocabs : List SpecVocab) :
    (∀ k c2, lastWith SpecClass.name k classes = some c2 →
      ∃ el, Dict.lookup (Spec.add_namespace s name classes properties vocabs).1.namespaces
          name = some el ∧ Dict.lookup el.classes k = some c2) ∧
    (∀ k p2, lastWith SpecProperty.name k properties = some p2 →
      ∃ el, Dict.lookup (Spec.add_namespace s name classes properties vocabs).1.namespaces
          name = some el ∧ Dict.lookup el.properties k = some p2) ∧
    (∀ k v2, lastWith SpecVocab.name k vocabs = some v2 →
      ∃ el, Dict.lookup (Spec.add_namespace s name classes properties vocabs).1.namespaces
          name = some el ∧ Dict.lookup el.vocabs k = some v2) ∧
    (∀ pre x rest, classes = pre ++ x :: rest →
      SpecClass.name x ∈ rest.map SpecClass.name →
      (Spec.add_namespace s name classes properties vocabs).2 ≠ []) ∧
    (∀ pre x rest, properties = pre ++ x :: rest →
      SpecProperty.name x ∈ rest.map SpecProperty.name →
      (Spec.add_namespace s name classes properties vocabs).2 ≠ []) ∧
    (∀ pre x rest, vocabs = pre ++ x :: rest →
      SpecVocab.name x ∈ rest.map SpecVocab.name →
      (Spec.add_namespace s name classes properties vocabs).2 ≠ []) ∧
    (Dict.contains s.namespaces name = true →
      (Spec.add_namespace s name classes properties vocabs).2 ≠ []) := by
  refine ⟨?_, ?_, ?_, ?_, ?_, ?_, ?_⟩
  · intro k c2 hlast
    refine ⟨_, Dict.lookup_insert_self s.namespaces name _, ?_⟩
    show Dict.lookup (dupLoop
      (fun n => "Duplicate Class object found: " ++ name ++ ":" ++ n)
      SpecClass.name id classes ([], [])).1 k = some c2
    rw [dupLoop_lookup, hlast]
    rfl
  · intro k p2 hlast
    refine ⟨_, Dict.lookup_insert_self s.namespaces name _, ?_⟩
    show Dict.lookup (dupLoop
      (fun n => "Duplicate Property object found: " ++ name ++ ":" ++ n)
      SpecProperty.name id properties ([],
        (dupLoop (fun n => "Duplicate Class object found: " ++ name ++ ":" ++ n)
          SpecClass.name id classes ([], [])).2)).1 k = some p2
    rw [dupLoop_lookup, hlast]
    rfl
  · intro k v2 hlast
    refine ⟨_, Dict.lookup_insert_self s.namespaces name _, ?_⟩
    show Dict.lookup (dupLoop
      (fun n => "Duplicate Vocab object found: " ++ name ++ ":" ++ n)
      SpecVocab.name id vocabs ([],
        (dupLoop (fun n => "Duplicate Property object found: " ++ name ++ ":" ++ n)
          SpecProperty.name id properties ([],
            (dupLoop (fun n => "Duplicate Class object found: " ++ name ++ ":" ++ n)
              SpecClass.name id classes ([], [])).2)).2)).1 k = some v2
    rw [dupLoop_lookup, hlast]
    rfl
  · intro pre x rest hce hdup
    obtain ⟨t, ht⟩ := add_namespace_errors_eq s name classes properties vocabs
    rw [ht]
    apply append_ne_nil_left
    obtain ⟨t2, ht2⟩ := dupLoop_errors_extend
      (fun n => "Duplicate Vocab object found: " ++ name ++ ":" ++ n)
      SpecVocab.name id vocabs []
      ((dupLoop (fun n => "Duplicate Property object found: " ++ name ++ ":" ++ n)
        SpecProperty.name id properties ([],
          (dupLoop (fun n => "Duplicate Class object found: " ++ name ++ ":" ++ n)
            SpecClass.name id classes ([], [])).2)).2)
    rw [ht2]
    apply append_ne_nil_left
    obtain ⟨t1, ht1⟩ := dupLoop_errors_extend
      (fun n => "Duplicate Property object found: " ++ name ++ ":" ++ n)
      SpecProperty.name id properties []
      ((dupLoop (fun n => "Duplicate Class object found: " ++ name ++ ":" ++ n)
        SpecClass.name id classes ([], [])).2)
    rw [ht1]
    apply append_ne_nil_left
    rw [hce]
    exact dupLoop_errors_ne_nil_of_dup _ SpecClass.name id pre x rest [] hdup
  · intro pre x rest hpe hdup
    obtain ⟨t, ht⟩ := add_namespace_errors_eq s name classes properties vocabs
    rw [ht]
    apply append_ne_nil_left
    obtain ⟨t2, ht2⟩ := dupLoop_errors_extend
      (fun n => "Duplicate Vocab object found: " ++ name ++ ":" ++ n)
      SpecVocab.name id vocabs []
      ((dupLoop (fun n => "Duplicate Property object found: " ++ name ++ ":" ++ n)
        SpecProperty.name id properties ([],
          (dupLoop (fun n => "Duplicate Class object found: " ++ name ++ ":" ++ n)
            SpecClass.name id classes ([], [])).2)).2)
    rw [ht2]
    apply append_ne_nil_left
    rw [hpe]
    intro hnil
    have hlong := dupLoop_errors_longer_of_dup
      (fun n => "Duplicate Property object found: " ++ name ++ ":" ++ n)
      SpecProperty.name id pre x rest []
      ((dupLoop (fun n => "Duplicate Class object found: " ++ name ++ ":" ++ n)
        SpecClass.name id classes ([], [])).2) hdup
    rw [hnil] at hlong
    simp at hlong
  · intro pre x rest hve hdup
    obtain ⟨t, ht⟩ := add_namespace_errors_eq s name classes properties vocabs
    rw [ht]
    apply append_ne_nil_left
    rw [hve]
    intro hnil
    have hlong := dupLoop_errors_longer_of_dup
      (fun n => "Duplicate Vocab object found: " ++ name ++ ":" ++ n)
      SpecVocab.name id pre x rest []
      ((dupLoop (fun n => "Duplicate Property object found: " ++ name ++ ":" ++ n)
        SpecProperty.name id properties ([],
          (dupLoop (fun n => "Duplicate Class object found: " ++ name ++ ":" ++ n)
            SpecClass.name id classes ([], [])).2)).2) hdup
    rw [hnil] at hlong
    simp at hlong
  · intro hc
    have heq : (Spec.add_namespace s name classes properties vocabs).2 =
        if Dict.contains s.namespaces name then
          (dupLoop (fun n => "Duplicate Vocab object found: " ++ name ++ ":" ++ n)
            SpecVocab.name id vocabs ([],
              (dupLoop (fun n => "Duplicate Property object found: " ++ name ++ ":" ++ n)
                SpecProperty.name id properties ([],
                  (dupLoop (fun n => "Duplicate Class object found: " ++ name ++ ":" ++ n)
                    SpecClass.name id classes ([], [])).2)).2)).2 ++
            ["Namespace with name: " ++ name ++ " already exists"]
        else
          (dupLoop (fun n => "Duplicate Vocab object found: " ++ name ++ ":" ++ n)
            SpecVocab.name id vocabs ([],
              (dupLoop (fun n => "Duplicate Property object found: " ++ name ++ ":" ++ n)
                SpecProperty.name id properties ([],
                  (dupLoop (fun n => "Duplicate Class object found: " ++ name ++ ":" ++ n)
                    SpecClass.name id classes ([], [])).2)).2)).2 := rfl
    rw [heq, if_pos hc]
    simp

/-- Witness for C8: registering `[cA1, cA2]` (same name `A`) into a
registry that already holds namespace `ns` keeps `cA2` (the later one) in
the class map and records errors. -/
theorem C8_registry_keep_last_and_errors_witness :
    (∃ el, Dict.lookup (Spec.add_namespace s0reg "ns" [cA1, cA2] [] []).1.namespaces
        "ns" = some el ∧ Dict.lookup el.classes "A" = some cA2) ∧
    (Spec.add_namespace s0reg "ns" [cA1, cA2] [] []).2 ≠ [] :=
  ⟨(C8_registry_keep_last_and_errors s0reg "ns" [cA1, cA2] [] []).1 "A" cA2 (by decide),
   (C8_registry_keep_last_and_errors s0reg "ns" [cA1, cA2] [] []).2.2.2.2.2.2
     (by decide)⟩

/-- C4: in a run whose root logger carries an `ErrorFoundFilter` (the
setup the runner installs per generation run), once any ERROR-severity
record is logged, `isError()` is true, so `dump_md` writes no
documentation files and `gen_rdf` writes no serialized graph file — each
returns early with a warning instead. -/
theorem C4_tainted_run_no_output
    (handlers : List Handler) (levels : List Nat) (out pfx : String) (s : Spec)
    (hhas : hasErrorFound handlers = true)
    (hlev : ERROR_LEVEL ∈ levels) :
    isError (applyLogs levels handlers) = true ∧
    Spec.dump_md (applyLogs levels handlers) out s =
      .abortedWithWarning "Error parsing the spec. Aborting the dump_md..." ∧
    Spec.gen_rdf (applyLogs levels handlers) pfx out s =
      .abortedWithWarning "Error parsing the spec. Aborting the gen_rdf..." := by
  have h1 : hasErrorFound (applyLogs levels handlers) = true := by
    rw [hasErrorFound_applyLogs]
    exact hhas
  have h2 := allErrorFoundAtLeast_applyLogs_mem levels handlers hlev
  have herr := isError_true_of _ h1 h2
  refine ⟨herr, ?_, ?_⟩
  · simp [Spec.dump_md, herr]
  · simp [Spec.gen_rdf, herr]

/-- Witness for C4: one handler with an `ErrorFoundFilter` at INFO, one
ERROR record logged — both artifact steps abort. -/
theorem C4_tainted_run_no_output_witness :
    isError (applyLogs [40] [⟨[LFilter.errorFound 20]⟩]) = true ∧
    Spec.dump_md (applyLogs [40] [⟨[LFilter.errorFound 20]⟩]) "out" ⟨[], []⟩ =
      .abortedWithWarning "Error parsing the spec. Aborting the dump_md..." ∧
    Spec.gen_rdf (applyLogs [40] [⟨[LFilter.errorFound 20]⟩]) "P" "out" ⟨[], []⟩ =
      .abortedWithWarning "Error parsing the spec. Aborting the gen_rdf..." :=
  C4_tainted_run_no_output [⟨[LFilter.errorFound 20]⟩] [40] "out" "P" ⟨[], []⟩
    (by decide) (by decide)

/-- C10: if no `ErrorFoundFilter` instance is installed on any handler of
the root logger, `isError()` returns false no matter how many
ERROR-severity records were logged, so both `dump_md` and `gen_rdf`
produce their output artifacts despite prior errors. -/
theorem C10_no_filter_no_gating
    (handlers : List Handler) (levels : List Nat) (out pfx : String) (s : Spec)
    (hno : noErrorFound handlers = true) :
    isError (applyLogs levels handlers) = false ∧
    Spec.dump_md (applyLogs levels handlers) out s = .written (Spec.mdFiles out s) ∧
    Spec.gen_rdf (applyLogs levels handlers) pfx out s =
      .written (out ++ "/tst.ttl", Spec.buildGraph pfx s) := by
  have h1 : noErrorFound (applyLogs levels handlers) = true := by
    rw [noErrorFound_applyLogs]
    exact hno
  have herr := isError_false_of_no_errorFound _ h1
  refine ⟨herr, ?_, ?_⟩
  · simp [Spec.dump_md, herr]
  · simp [Spec.gen_rdf, herr]

/-- Witness for C10: no `ErrorFoundFilter` anywhere, two ERROR records
logged — both artifacts are still produced (one markdown file, one
turtle file). -/
theorem C10_no_filter_no_gating_witness :
    (isError (applyLogs [40, 40] [⟨[LFilter.other]⟩]) = false ∧
      Spec.dump_md (applyLogs [40, 40] [⟨[LFilter.other]⟩]) "out" specOne =
        .written (Spec.mdFiles "out" specOne) ∧
      Spec.gen_rdf (applyLogs [40, 40] [⟨[LFilter.other]⟩]) "P" "out" specOne =
        .written ("out" ++ "/tst.ttl", Spec.buildGraph "P" specOne)) ∧
    Spec.mdFiles "out" specOne =
      ["out" ++ "/" ++ "core" ++ "/Classes/" ++ "Widget" ++ ".md"] :=
  ⟨C10_no_filter_no_gating [⟨[LFilter.other]⟩] [40, 40] "out" "P" specOne (by decide),
   by decide⟩
